import Mathlib

/-!
Verification of the classification / filtering / ranking core of
`scripts/job_search.py` (seasonal job-offer aggregator).

The Python source is shallowly embedded below.  Texts are Lean `String`s;
Python's `w in t` substring test is `containsSub`, `str.lower()` is the
character-wise `lowChar` map (faithful on ASCII; the French texts involved
only ever contain lower-case accented letters, which both maps leave
unchanged), `str.strip()` is `stripL` over the usual ASCII whitespace set.
The three experience regexes are embedded as explicit leftmost-search,
greedy, backtracking matchers for exactly those patterns.

External collaborators (HTTP fetching, geocoding, contact scraping, the
city/employer regex extractors that only fill display fields) are passed
as parameters of the pipeline environment `PipeEnv`, as the specification
itself treats them as external.  The geocoding distance computation
(`haversine_km`, sentinel 99999) is modelled over `ℝ`.
-/

/-- Python's ASCII whitespace set (what `\s` / `strip()` match on the
texts concerned). -/
def isSp (c : Char) : Bool :=
  c == ' ' || c == '\t' || c == '\n' || c == '\r' || c == '\x0b' || c == '\x0c'

/-- Character-wise lower-casing, as in Python's `str.lower()` restricted to
ASCII letters (sufficient for every keyword table of the source, which is
all lower-case). -/
def lowChar (c : Char) : Char :=
  if 'A' ≤ c ∧ c ≤ 'Z' then Char.ofNat (c.toNat + 32) else c

def lowerL (l : List Char) : List Char := l.map lowChar

def lowerS (s : String) : String := ⟨lowerL s.data⟩

/-- Strip: `l.dropWhile isSp`, reversed twice to also strip the right end:
Python's `str.strip()`. -/
def stripL (l : List Char) : List Char :=
  ((l.dropWhile isSp).reverse.dropWhile isSp).reverse

def stripS (s : String) : String := ⟨stripL s.data⟩

/-- Boolean list-prefix test (`str.startswith`). -/
def isPreCL : List Char → List Char → Bool
  | [], _ => true
  | _ :: _, [] => false
  | a :: as, b :: bs => a == b && isPreCL as bs

/-- Boolean substring test: Python's `needle in hay`. -/
def containsSub (n : List Char) : List Char → Bool
  | [] => isPreCL n []
  | c :: t => isPreCL n (c :: t) || containsSub n t

/-- Python `n in hay` on strings. -/
def inStr (n : String) (hay : String) : Bool := containsSub n.data hay.data

-- -------------------- Keyword tables (verbatim from the source) ----------

def SERVICE_BAR_POLY : List String :=
  ["serveur", "serveuse", "chef de rang", "runner",
   "bar", "barman", "barmaid",
   "polyvalent", "polyvalente", "employé polyvalent", "employée polyvalente",
   "réceptionniste", "accueil", "accueillant", "accueillante", "hôtesse", "hôte"]

def VENTE_OBJETS : List String :=
  ["vendeur", "vendeuse", "conseiller de vente", "conseillère de vente",
   "prêt-à-porter", "pret-a-porter", "mode", "boutique", "chaussures", "sport", "magasin",
   "papeterie", "maison", "décoration", "electronique", "high-tech", "jouet", "bricolage"]

def RAYON_MERCH : List String :=
  ["mise en rayon", "remise en rayon", "els", "employé libre-service", "employée libre-service",
   "merchandising", "réassort", "reassort", "facing", "inventaire", "magasinier"]

def CUISINE_HARD : List String :=
  ["cuisinier", "cuisinière", "cuisine", "commis de cuisine", "commis cuisine",
   "chef de partie", "plongeur batterie", "préparateur culinaire", "snack", "pizzaiolo"]

def ALIMENTAIRE_HARD : List String :=
  ["boucher", "bouchère", "boucherie", "charcutier", "charcuterie",
   "poissonnier", "poissonnerie", "fromager", "fromagerie",
   "boulanger", "boulangerie", "pâtissier", "pâtisserie", "patissier", "patisserie",
   "primeur", "traiteur", "restauration rapide", "sandwicherie"]

def HYPER_CHAINS : List String :=
  ["carrefour", "auchan", "leclerc", "e.leclerc", "intermarché", "intermarche", "lidl", "aldi",
   "monoprix", "casino", "super u", "u express", "géant", "geant", "cora", "match", "spar"]

def CLEANING_SOFT : List String :=
  ["agent d'entretien", "agent de nettoyage", "entretien", "nettoyage",
   "femme de chambre", "valet de chambre", "gouvernante", "laveur", "laveuse"]

def PLONGE_SOFT : List String := ["plonge", "plongeur", "plongeuse"]

def HOUSING_KEYS : List String :=
  ["logé", "loge", "logement fourni", "logement inclus", "logement possible",
   "nourri", "logé nourri", "loge nourri", "hébergement fourni", "hébergement",
   "logement sur place"]

def TRAINING_KEYWORDS : List String :=
  ["diplôme", "diplome", "cap", "bep", "bac", "bts", "dut", "licence", "master", "bac+",
   "certificat", "certification", "caces", "ssiap", "haccp", "h a c c p",
   "titre professionnel"]

def TRAINING_REQUIRE_WORDS : List String :=
  ["exig", "requis", "obligatoire", "indispensable", "nécessaire"]

-- -------------------- Classifiers ----------------------------------------

/-- Embeds `_has_any(text, words)`. -/
def has_any (text : String) (words : List String) : Bool :=
  let t := lowerS text
  words.any (fun w => inStr w t)

/-- Embeds `_role_is_cleaning_only(text)`. -/
def role_is_cleaning_only (text : String) : Bool :=
  let t := lowerS text
  if has_any t CLEANING_SOFT = false then false
  else !(has_any t SERVICE_BAR_POLY || has_any t VENTE_OBJETS || has_any t RAYON_MERCH)

/-- Embeds `_role_is_plonge_only(text)`. -/
def role_is_plonge_only (text : String) : Bool :=
  let t := lowerS text
  if has_any t PLONGE_SOFT = false then false
  else !(has_any t SERVICE_BAR_POLY || has_any t VENTE_OBJETS || has_any t RAYON_MERCH)

/-- Embeds `role_allowed(text)`. -/
def role_allowed (text : String) : Bool :=
  let t := lowerS text
  if has_any t CUISINE_HARD || has_any t ALIMENTAIRE_HARD || has_any t HYPER_CHAINS then false
  else if role_is_cleaning_only t || role_is_plonge_only t then false
  else has_any t SERVICE_BAR_POLY || has_any t VENTE_OBJETS || has_any t RAYON_MERCH

/-- Embeds `matches_housing(text)`. -/
def matches_housing (text : String) : Bool :=
  let t := lowerS text
  HOUSING_KEYS.any (fun k => inStr k t)

/-- Embeds `requires_training(text)`: training keyword AND requirement word. -/
def requires_training (text : String) : Bool :=
  let t := lowerS text
  (TRAINING_KEYWORDS.any (fun k => inStr k t)) &&
    (TRAINING_REQUIRE_WORDS.any (fun w => inStr w t))

/-- Embeds `mentions_permit(text)`: stem match on "permi". -/
def mentions_permit (text : String) : Bool := inStr ("permi") (lowerS text)

/-- Embeds `is_http_url(u)` (`None` arrives as the empty string in the pipeline). -/
def is_http_url (u : String) : Bool :=
  (!(u == "")) && (isPreCL (("http://").data) u.data || isPreCL (("https://").data) u.data)

/-- Embeds `looks_recent(text)`; `today` is the `datetime.now` date string, passed
explicitly since it is an input of the computation. -/
def looks_recent (today : String) (text : String) : Bool :=
  let t := lowerS text
  (["aujourd’hui", "aujourd'hui", "today", "il y a ", "nouvelle offre", today]).any
    (fun h => inStr h t)

-- -------------------- Experience regexes ----------------------------------

/-- Greedy `\d+` with its numeric value (no backtracking is ever needed for
it in the three patterns, since what follows can never match a digit). -/
def digitsNum (l : List Char) : Option (Nat × List Char) :=
  let ds := l.takeWhile Char.isDigit
  if ds.isEmpty then none
  else some (ds.foldl (fun acc c => 10 * acc + (c.toNat - 48)) 0, l.dropWhile Char.isDigit)

/-- Literal token. -/
def litP (w : List Char) (l : List Char) : Option (List Char) :=
  if isPreCL w l then some (l.drop w.length) else none

/-- One character out of a class. -/
def charP (cs : List Char) : List Char → Option (List Char)
  | c :: t => if cs.contains c then some t else none
  | [] => none

/-- Matches `\s*` (greedy; the following token is never a whitespace). -/
def sp0 (l : List Char) : List Char := l.dropWhile isSp

/-- Matches `\s+`. -/
def sp1 : List Char → Option (List Char)
  | c :: t => if isSp c then some (t.dropWhile isSp) else none
  | [] => none

/-- Matches `(?:an|ans)\s+`, with the regex alternation's backtracking. -/
def anAnsSp (l : List Char) : Option (List Char) :=
  (litP (("an").data) l >>= sp1) <|> (litP (("ans").data) l >>= sp1)

/-- Matches `exp[ée]rience`. -/
def expTail (l : List Char) : Option (List Char) := do
  let r1 ← litP (("exp").data) l
  let r2 ← (charP (['é']) r1) <|> (charP (['e']) r1)
  litP (("rience").data) r2

/-- Matches `d[' ]?exp[ée]rience` (greedy optional class, with fallback). -/
def dExpPart (l : List Char) : Option (List Char) := do
  let r1 ← litP (['d']) l
  (do let r2 ← charP (['\'', ' ']) r1; expTail r2) <|> expTail r1

/-- Matcher for `RE_YEARS` anchored at the head: `(\d+)\s*(?:an|ans)\s+d[' ]?exp[ée]rience`. -/
def yearsAt (l : List Char) : Option Nat := do
  let (x, r1) ← digitsNum l
  let r3 ← anAnsSp (sp0 r1)
  let _ ← dExpPart r3
  pure x

/-- Matcher for `RE_RANGE` anchored at the head:
`(\d+)\s*(?:à|-|–|—)\s*(\d+)\s*(?:an|ans)\s+d[' ]?exp[ée]rience`. -/
def rangeAt (l : List Char) : Option (Nat × Nat) := do
  let (x, r1) ← digitsNum l
  let r3 ← charP (['à', '-', '–', '—']) (sp0 r1)
  let (y, r5) ← digitsNum (sp0 r3)
  let r7 ← anAnsSp (sp0 r5)
  let _ ← dExpPart r7
  pure (x, y)

/-- Shared tail `\s*(\d+)\s*(?:an|ans)` of `RE_MIN`. -/
def minRest (r : List Char) : Option Nat := do
  let (x, r2) ← digitsNum (sp0 r)
  let r3 := sp0 r2
  let _ ← (litP (("an").data) r3) <|> (litP (("ans").data) r3)
  pure x

/-- Matcher for `RE_MIN` anchored at the head: `(?:au moins|minimum|min\.?)\s*(\d+)\s*(?:an|ans)`. -/
def minAt (l : List Char) : Option Nat :=
  (litP (("au moins").data) l >>= minRest) <|>
  (litP (("minimum").data) l >>= minRest) <|>
  (do let r1 ← litP (("min").data) l
      (litP ((".").data) r1 >>= minRest) <|> minRest r1)

/-- Search as `re.search`: leftmost position first, as the Python engine scans. -/
def searchO {α : Type} (m : List Char → Option α) : List Char → Option α
  | [] => m []
  | c :: t => m (c :: t) <|> searchO m t

def NO_EXP_PHRASES : List String :=
  ["débutant accepté", "debutant accepté", "sans expérience", "sans experience"]

def EXP_REQUIRED_PHRASES : List String :=
  ["expérience exigée", "experience exigée",
   "expérience requise", "experience requise",
   "expérience indispensable", "experience indispensable",
   "expérience obligatoire", "experience obligatoire",
   "expérience significative", "experience significative"]

def FIRST_EXP_PHRASES : List String :=
  ["première expérience", "premiere experience", "1ère expérience"]

/-- Embeds `experience_ok(text)` — the `or`-chains of the source are the `any` over
the corresponding phrase lists. -/
def experience_ok (text : String) : Bool :=
  let t := lowerS text
  if NO_EXP_PHRASES.any (fun p => inStr p t) then true
  else if EXP_REQUIRED_PHRASES.any (fun p => inStr p t) then false
  else match searchO rangeAt t.data with
    | some (x, y) => decide (max x y ≤ 1)
    | none => match searchO minAt t.data with
      | some x => decide (x ≤ 1)
      | none => match searchO yearsAt t.data with
        | some x => decide (x ≤ 1)
        | none => if FIRST_EXP_PHRASES.any (fun p => inStr p t) then true else true

-- -------------------- Pipeline data model ---------------------------------

/-- A raw provider record (`items` entries of `enrich_and_filter`); the
`dict.get(..., "")` defaults are the empty string. -/
structure RawItem where
  title : String
  employer : String
  city : String
  link : String
  raw : String
deriving DecidableEq

/-- The candidate dict appended at the end of the loop body. -/
structure Cand where
  title : String
  employer : String
  city : String
  distance_km : Int
  link : String
  phone : Option String
  email : Option String
  raw : String
  recent_bias : Int
  requires_permit : Bool
deriving DecidableEq

/-- The external collaborators and configuration the loop body consumes:
`HOUSING_REQUIRED`, `FALLBACK_CONTACTS`, today's date string,
`fetch_page_text`, `pick_city_from_text`, the employer regex of the detail
branch, `fetch_contact_details`, `fallback_contacts`, and the composite
geocode-plus-haversine distance (city query ↦ km, 99999 on failure). -/
structure PipeEnv where
  housingRequired : Bool
  fallbackEnabled : Bool
  today : String
  fetch : String → String
  pickCity : String → String
  extractEmp : String → Option String
  contacts : String → Option String × Option String
  fallbackPhone : String → String → Option String
  geoDist : String → Int

/-- Python `a or b` on strings (empty is falsy). -/
def orS (a b : String) : String := if a = "" then b else a

/-- Embeds `text_preview = " ".join([title, employer, city, raw]).strip()`. -/
def textPreview (it : RawItem) : String :=
  stripS (it.title ++ " " ++ it.employer ++ " " ++ it.city ++ " " ++ it.raw)

/-- Embeds `need_detail = (not role_allowed(preview)) or (HOUSING_REQUIRED and not
matches_housing(preview))`. -/
def needDetail (housing : Bool) (preview : String) : Bool :=
  !role_allowed preview || (housing && !matches_housing preview)

/-- Value `detail_text` (empty when no fetch was needed). -/
def detailText (e : PipeEnv) (it : RawItem) : String :=
  if needDetail e.housingRequired (textPreview it) then e.fetch it.link else ("")

/-- Embeds `check_text = (text_preview + " " + (detail_text or "")).strip()`. -/
def checkText (e : PipeEnv) (it : RawItem) : String :=
  stripS (textPreview it ++ " " ++ detailText e it)

/-- Embeds `city = it.get("city","") or pick_city_from_text(text_preview)`. -/
def cityListing (e : PipeEnv) (it : RawItem) : String :=
  orS it.city (e.pickCity (textPreview it))

/-- The city after the detail-page improvement branch. -/
def cityFinal (e : PipeEnv) (it : RawItem) : String :=
  if detailText e it ≠ "" ∧ cityListing e it = "" then
    orS (e.pickCity (detailText e it)) (cityListing e it)
  else cityListing e it

/-- The employer after the detail-page improvement branch. -/
def employerFinal (e : PipeEnv) (it : RawItem) : String :=
  if detailText e it ≠ "" ∧ it.employer = "" then
    (match e.extractEmp (detailText e it) with
     | some s => s
     | none => it.employer)
  else it.employer

/-- The candidate dict built for an accepted item (lines 744-766). -/
def mkCand (e : PipeEnv) (it : RawItem) : Cand :=
  let check := checkText e it
  let dist := e.geoDist (orS (cityFinal e it) (e.pickCity (textPreview it)))
  let pe := e.contacts it.link
  let phone : Option String :=
    match pe.1 with
    | some p => some p
    | none =>
      if e.fallbackEnabled = true ∧ employerFinal e it ≠ "" then
        e.fallbackPhone (employerFinal e it) (cityFinal e it)
      else none
  { title := it.title
    employer := employerFinal e it
    city := cityFinal e it
    distance_km := dist
    link := it.link
    phone := phone
    email := pe.2
    raw := check
    recent_bias := if looks_recent e.today check then -1 else 0
    requires_permit := mentions_permit check }

/-- One iteration of the `for it in items` loop (lines 696-766): the
accepted candidate if any, and whether the detail page was fetched
(`fetch_page_text` call).  The `continue`s are the early `none`s. -/
def processItem (e : PipeEnv) (seen : List String) (it : RawItem) : Option Cand × Bool :=
  if is_http_url it.link = false then (none, false)
  else if it.link ∈ seen then (none, false)
  else if requires_training (textPreview it) = true then (none, false)
  else if experience_ok (textPreview it) = false then (none, false)
  else if role_allowed (checkText e it) = false then
    (none, needDetail e.housingRequired (textPreview it))
  else if e.housingRequired = true ∧ matches_housing (checkText e it) = false then
    (none, needDetail e.housingRequired (textPreview it))
  else if requires_training (checkText e it) = true then
    (none, needDetail e.housingRequired (textPreview it))
  else if experience_ok (checkText e it) = false then
    (none, needDetail e.housingRequired (textPreview it))
  else (some (mkCand e it), needDetail e.housingRequired (textPreview it))

/-- Update of `seen_links`: it grows for every well-formed fresh link, before the
content filters run. -/
def stepSeen (seen : List String) (it : RawItem) : List String :=
  if is_http_url it.link = true ∧ it.link ∉ seen then seen ++ [it.link] else seen

/-- The whole loop: the `candidates` list. -/
def collectCands (e : PipeEnv) : List String → List RawItem → List Cand
  | _, [] => []
  | seen, it :: rest =>
    match (processItem e seen it).1 with
    | some c => c :: collectCands e (stepSeen seen it) rest
    | none => collectCands e (stepSeen seen it) rest

-- -------------------- Dedup and ranking -----------------------------------

/-- whitespace-run collapsing of `re.sub(r"\s+", " ", s)`. -/
def collapseAux : Bool → List Char → List Char
  | _, [] => []
  | prevSp, c :: rest =>
    if isSp c then
      if prevSp then collapseAux true rest else ' ' :: collapseAux true rest
    else c :: collapseAux false rest

/-- Embeds `canon(s) = re.sub(r"\s+", " ", (s or "").lower().strip())`. -/
def canon (s : String) : String :=
  ⟨collapseAux false (stripL (lowerL s.data))⟩

/-- The advanced-dedup identity signature `(canon title, canon employer,
canon city)`. -/
def sigOf (c : Cand) : String × String × String :=
  (canon c.title, canon c.employer, canon c.city)

/-- The per-signature preference key
`(requires_permit, distance_km, recent_bias)` (`False < True` in Python). -/
def dkey (c : Cand) : Int × Int × Int :=
  (if c.requires_permit then 1 else 0, c.distance_km, c.recent_bias)

/-- Strict lexicographic `<` on integer triples (Python tuple `<`). -/
def lex3Lt (a b : Int × Int × Int) : Prop :=
  a.1 < b.1 ∨ (a.1 = b.1 ∧ (a.2.1 < b.2.1 ∨ (a.2.1 = b.2.1 ∧ a.2.2 < b.2.2)))

/-- Lexicographic `≤` on integer triples. -/
def lex3Le (a b : Int × Int × Int) : Prop :=
  a.1 < b.1 ∨ (a.1 = b.1 ∧ (a.2.1 < b.2.1 ∨ (a.2.1 = b.2.1 ∧ a.2.2 ≤ b.2.2)))

instance (a b : Int × Int × Int) : Decidable (lex3Lt a b) := by
  unfold lex3Lt; infer_instance

instance (a b : Int × Int × Int) : Decidable (lex3Le a b) := by
  unfold lex3Le; infer_instance

/-- One update of the `best_by_sig` insertion-ordered dict: a fresh
signature is appended, an existing one is replaced in place iff the new
key is strictly smaller. -/
def insertBest : List ((String × String × String) × Cand) → Cand →
    List ((String × String × String) × Cand)
  | [], o => [(sigOf o, o)]
  | (s, p) :: rest, o =>
    if s = sigOf o then
      if lex3Lt (dkey o) (dkey p) then (s, o) :: rest else (s, p) :: rest
    else (s, p) :: insertBest rest o

/-- Fold of `best_by_sig` / `list(best_by_sig.values())` (Python dicts preserve
first-insertion order). -/
def dedupBySig (cs : List Cand) : List Cand :=
  (cs.foldl insertBest []).map (fun sc => sc.2)

/-- The final sort key `(recent_bias, 1 if requires_permit else 0,
distance_km)`. -/
def sortKey (c : Cand) : Int × Int × Int :=
  (c.recent_bias, if c.requires_permit then 1 else 0, c.distance_km)

/-- The ranking order: lexicographic `≤` on `sortKey`. -/
def rankLE (a b : Cand) : Prop := lex3Le (sortKey a) (sortKey b)

instance : DecidableRel rankLE := fun a b => by
  unfold rankLE lex3Le; infer_instance

instance : IsTotal Cand rankLE :=
  ⟨by intro a b; unfold rankLE lex3Le; omega⟩

instance : IsTrans Cand rankLE :=
  ⟨by intro a b c; unfold rankLE lex3Le; omega⟩

/-- Sort `enriched.sort(key=...)`: Python's sort is the stable sort by
`sortKey`, i.e. insertion sort with the weak order `rankLE`. -/
def finalSort (cs : List Cand) : List Cand := List.insertionSort rankLE cs

/-- Whole `enrich_and_filter` after the (external) collection step: filter loop,
signature dedup, final sort. -/
def enrich_and_filter (e : PipeEnv) (items : List RawItem) : List Cand :=
  finalSort (dedupBySig (collectCands e [] items))

-- -------------------- Distance model (haversine) ---------------------------

/-- Embeds `math.radians`. -/
noncomputable def radians (x : ℝ) : ℝ := x * Real.pi / 180

/-- Embeds `haversine_km(lat1, lon1, lat2, lon2)` with mean Earth radius 6371 km,
over the reals. -/
noncomputable def haversine_km (lat1 lon1 lat2 lon2 : ℝ) : ℝ :=
  let R : ℝ := 6371
  let phi1 := radians lat1
  let phi2 := radians lat2
  let dphi := phi2 - phi1
  let dlambda := radians (lon2 - lon1)
  let a := Real.sin (dphi / 2) ^ 2 +
    Real.cos phi1 * Real.cos phi2 * Real.sin (dlambda / 2) ^ 2
  2 * R * Real.arcsin (Real.sqrt a)

/-- Lines 744-747: the distance stored on a candidate — the sentinel 99999
when the geocoder returned nothing, otherwise the rounded haversine
distance from the origin. -/
noncomputable def distOf (origin : ℝ × ℝ) : Option (ℝ × ℝ) → Int
  | none => 99999
  | some c => round (haversine_km origin.1 origin.2 c.1 c.2)

-- ==========================================================================
--                               LEMMAS
-- ==========================================================================

-- ---- substring characterizations ----

lemma isPreCL_iff (n : List Char) : ∀ l, isPreCL n l = true ↔ ∃ t, n ++ t = l := by
  induction n with
  | nil =>
    intro l
    simp [isPreCL]
  | cons a as ih =>
    intro l
    cases l with
    | nil =>
      simp [isPreCL]
    | cons b bs =>
      simp only [isPreCL, Bool.and_eq_true, beq_iff_eq, ih bs]
      constructor
      · rintro ⟨rfl, t, rfl⟩
        exact ⟨t, rfl⟩
      · rintro ⟨t, h⟩
        injection h with h1 h2
        exact ⟨h1, t, h2⟩

lemma containsSub_iff (n : List Char) : ∀ l, containsSub n l = true ↔ ∃ s t, s ++ n ++ t = l := by
  intro l
  induction l with
  | nil =>
    simp only [containsSub, isPreCL_iff]
    constructor
    · rintro ⟨t, h⟩
      exact ⟨[], t, by simpa using h⟩
    · rintro ⟨s, t, h⟩
      rcases List.append_eq_nil.mp h with ⟨h1, h2⟩
      rcases List.append_eq_nil.mp h1 with ⟨rfl, rfl⟩
      exact ⟨[], by simp⟩
  | cons c l ih =>
    simp only [containsSub, Bool.or_eq_true, isPreCL_iff, ih]
    constructor
    · rintro (⟨t, h⟩ | ⟨s, t, h⟩)
      · exact ⟨[], t, by simpa using h⟩
      · exact ⟨c :: s, t, by simp [h]⟩
    · rintro ⟨s, t, h⟩
      cases s with
      | nil => exact Or.inl ⟨t, by simpa using h⟩
      | cons x s =>
        injection h with h1 h2
        exact Or.inr ⟨s, t, h2⟩

lemma containsSub_append_right (n l l' : List Char) (h : containsSub n l = true) :
    containsSub n (l ++ l') = true := by
  rcases (containsSub_iff n l).mp h with ⟨s, t, rfl⟩
  exact (containsSub_iff n _).mpr ⟨s, t ++ l', by simp⟩

lemma containsSub_reverse (n l : List Char) (h : containsSub n l = true) :
    containsSub n.reverse l.reverse = true := by
  rcases (containsSub_iff n l).mp h with ⟨s, t, rfl⟩
  exact (containsSub_iff _ _).mpr ⟨t.reverse, s.reverse, by simp⟩

/-- Whitespace characters are fixed by the lower-casing map. -/
lemma lowChar_of_isSp (c : Char) (h : isSp c = true) : lowChar c = c := by
  simp only [isSp, Bool.or_eq_true, beq_iff_eq] at h
  rcases h with ((((rfl | rfl) | rfl) | rfl) | rfl) | rfl <;> decide

/-- Head of a nonempty list is not whitespace. -/
def headNotSp : List Char → Bool
  | [] => false
  | c :: _ => !(isSp c)

/-- A substring whose first character is not whitespace survives the
left-strip of the (lower-cased) haystack. -/
lemma containsSub_lower_dropWhile (k : List Char) (hk : headNotSp k = true) :
    ∀ l, containsSub k (lowerL l) = true →
      containsSub k (lowerL (l.dropWhile isSp)) = true := by
  intro l
  induction l with
  | nil => exact fun h => h
  | cons c l ih =>
    intro h
    by_cases hsp : isSp c = true
    · have hdrop : (c :: l).dropWhile isSp = l.dropWhile isSp := by
        simp [List.dropWhile, hsp]
      rw [hdrop]
      apply ih
      simp only [lowerL, List.map_cons, containsSub, Bool.or_eq_true] at h
      rcases h with hpre | hsub
      · exfalso
        cases k with
        | nil => simp [headNotSp] at hk
        | cons a as =>
          simp only [isPreCL, Bool.and_eq_true, beq_iff_eq] at hpre
          have ha : a = c := by rw [hpre.1, lowChar_of_isSp c hsp]
          simp [headNotSp, ha, hsp] at hk
      · exact hsub
    · have hdrop : (c :: l).dropWhile isSp = c :: l := by
        simp [List.dropWhile, hsp]
      rw [hdrop]
      exact h

lemma lowerL_reverse (l : List Char) : lowerL l.reverse = (lowerL l).reverse := by
  simp [lowerL]

/-- A substring with non-whitespace first and last character survives a
full `strip()` of the (lower-cased) haystack. -/
lemma containsSub_lower_strip (k l : List Char)
    (hh : headNotSp k = true) (hr : headNotSp k.reverse = true)
    (h : containsSub k (lowerL l) = true) :
    containsSub k (lowerL (stripL l)) = true := by
  have s1 : containsSub k (lowerL (l.dropWhile isSp)) = true :=
    containsSub_lower_dropWhile k hh l h
  have s2 : containsSub k.reverse (lowerL ((l.dropWhile isSp).reverse)) = true := by
    rw [lowerL_reverse]
    exact containsSub_reverse _ _ s1
  have s3 : containsSub k.reverse
      (lowerL (((l.dropWhile isSp).reverse).dropWhile isSp)) = true :=
    containsSub_lower_dropWhile k.reverse hr _ s2
  have s4 : containsSub k.reverse.reverse
      (lowerL (((l.dropWhile isSp).reverse.dropWhile isSp))).reverse = true :=
    containsSub_reverse _ _ s3
  rw [List.reverse_reverse] at s4
  rw [stripL, lowerL_reverse]
  exact s4

lemma lowerL_append (a b : List Char) : lowerL (a ++ b) = lowerL a ++ lowerL b := by
  simp [lowerL]

lemma data_append (s t : String) : (s ++ t).data = s.data ++ t.data := by
  cases s; cases t; rfl

-- ---- lexicographic order facts ----

lemma lex3Le_refl (a : Int × Int × Int) : lex3Le a a := by
  unfold lex3Le; omega

lemma lex3Le_trans (a b c : Int × Int × Int)
    (h1 : lex3Le a b) (h2 : lex3Le b c) : lex3Le a c := by
  unfold lex3Le at *; omega

lemma lex3Lt_le (a b : Int × Int × Int) (h : lex3Lt a b) : lex3Le a b := by
  unfold lex3Lt at h; unfold lex3Le; omega

lemma lex3_not_lt (a b : Int × Int × Int) (h : ¬ lex3Lt a b) : lex3Le b a := by
  unfold lex3Lt at h; unfold lex3Le; omega

lemma lex3_not_le (a b : Int × Int × Int) (h : ¬ lex3Le a b) : lex3Lt b a := by
  unfold lex3Le at h; unfold lex3Lt; omega

lemma lex3_not_le_ne (a b : Int × Int × Int) (h : ¬ lex3Le a b) : a ≠ b := by
  intro he
  exact h (he ▸ lex3Le_refl a)

-- ---- final sort: sorted, permutation, stability ----

lemma finalSort_sorted (cs : List Cand) : List.Sorted rankLE (finalSort cs) :=
  List.sorted_insertionSort rankLE cs

lemma finalSort_perm (cs : List Cand) : List.Perm (finalSort cs) cs :=
  List.perm_insertionSort rankLE cs

/-- Within one `orderedInsert`, a filter on a fixed key value commutes:
the new element lands before every already-present element of equal key
only when inserted by the `foldr`-shaped `insertionSort`, and elements of
other keys are untouched. -/
lemma filter_orderedInsert (k : Int × Int × Int) (a : Cand) :
    ∀ m : List Cand,
      (List.orderedInsert rankLE a m).filter (fun c => decide (sortKey c = k)) =
        if sortKey a = k then
          a :: m.filter (fun c => decide (sortKey c = k))
        else m.filter (fun c => decide (sortKey c = k)) := by
  intro m
  induction m with
  | nil =>
    by_cases hpa : sortKey a = k <;> simp [List.orderedInsert, List.filter, hpa]
  | cons b m ih =>
    by_cases hab : rankLE a b
    · rw [List.orderedInsert, if_pos hab]
      by_cases hpa : sortKey a = k <;> simp [List.filter, hpa]
    · rw [List.orderedInsert, if_neg hab]
      have hba : sortKey a ≠ sortKey b := by
        intro he
        exact hab (by unfold rankLE; rw [he]; exact lex3Le_refl _)
      by_cases hpa : sortKey a = k
      · have hpb : ¬ (sortKey b = k) := by
          intro hbk
          exact hba (by rw [hpa, hbk])
        simp [List.filter_cons, hpa, hpb, ih]
      · by_cases hpb : sortKey b = k <;>
          simp [List.filter_cons, hpa, hpb, ih]

/-- Stability of the final sort: candidates of any fixed sort key keep
their input order. -/
lemma finalSort_stable (k : Int × Int × Int) :
    ∀ cs : List Cand,
      (finalSort cs).filter (fun c => decide (sortKey c = k)) =
        cs.filter (fun c => decide (sortKey c = k)) := by
  intro cs
  induction cs with
  | nil => rfl
  | cons a cs ih =>
    show (List.orderedInsert rankLE a (finalSort cs)).filter _ = _
    rw [filter_orderedInsert k a (finalSort cs)]
    by_cases hpa : sortKey a = k <;> simp [List.filter_cons, hpa, ih]

-- ---- dedup (best_by_sig) invariants ----

lemma insertBest_mem (m : List ((String × String × String) × Cand)) (o : Cand)
    (ps : List Cand) (hm : ∀ sc ∈ m, sc.2 ∈ ps) :
    ∀ sc ∈ insertBest m o, sc.2 ∈ ps ++ [o] := by
  induction m with
  | nil =>
    intro sc hsc
    simp only [insertBest, List.mem_singleton] at hsc
    simp [hsc]
  | cons hd rest ih =>
    obtain ⟨s, p⟩ := hd
    intro sc hsc
    by_cases hs : s = sigOf o
    · by_cases hlt : lex3Lt (dkey o) (dkey p)
      · simp only [insertBest, if_pos hs, if_pos hlt, List.mem_cons] at hsc
        rcases hsc with rfl | hsc
        · simp
        · exact List.mem_append_left _ (hm sc (List.mem_cons_of_mem _ hsc))
      · simp only [insertBest, if_pos hs, if_neg hlt, List.mem_cons] at hsc
        rcases hsc with rfl | hsc
        · exact List.mem_append_left _ (hm (s, p) (List.mem_cons_self _ _))
        · exact List.mem_append_left _ (hm sc (List.mem_cons_of_mem _ hsc))
    · simp only [insertBest, if_neg hs, List.mem_cons] at hsc
      rcases hsc with rfl | hsc
      · exact List.mem_append_left _ (hm (s, p) (List.mem_cons_self _ _))
      · exact ih (fun x hx => hm x (List.mem_cons_of_mem _ hx)) sc hsc

lemma insertBest_sig (m : List ((String × String × String) × Cand)) (o : Cand)
    (hm : ∀ sc ∈ m, sigOf sc.2 = sc.1) :
    ∀ sc ∈ insertBest m o, sigOf sc.2 = sc.1 := by
  induction m with
  | nil =>
    intro sc hsc
    simp only [insertBest, List.mem_singleton] at hsc
    simp [hsc]
  | cons hd rest ih =>
    obtain ⟨s, p⟩ := hd
    intro sc hsc
    by_cases hs : s = sigOf o
    · by_cases hlt : lex3Lt (dkey o) (dkey p)
      · simp only [insertBest, if_pos hs, if_pos hlt, List.mem_cons] at hsc
        rcases hsc with rfl | hsc
        · simp [hs]
        · exact hm sc (List.mem_cons_of_mem _ hsc)
      · simp only [insertBest, if_pos hs, if_neg hlt, List.mem_cons] at hsc
        rcases hsc with rfl | hsc
        · exact hm (s, p) (List.mem_cons_self _ _)
        · exact hm sc (List.mem_cons_of_mem _ hsc)
    · simp only [insertBest, if_neg hs, List.mem_cons] at hsc
      rcases hsc with rfl | hsc
      · exact hm (s, p) (List.mem_cons_self _ _)
      · exact ih (fun x hx => hm x (List.mem_cons_of_mem _ hx)) sc hsc

lemma insertBest_keys (m : List ((String × String × String) × Cand)) (o : Cand) :
    (insertBest m o).map (fun sc => sc.1) =
      if sigOf o ∈ m.map (fun sc => sc.1) then m.map (fun sc => sc.1)
      else m.map (fun sc => sc.1) ++ [sigOf o] := by
  induction m with
  | nil => simp [insertBest]
  | cons hd rest ih =>
    obtain ⟨s, p⟩ := hd
    by_cases hs : s = sigOf o
    · by_cases hlt : lex3Lt (dkey o) (dkey p) <;>
        simp [insertBest, hs, hlt]
    · have hmem : (sigOf o ∈ ((s, p) :: rest).map (fun sc => sc.1)) ↔
          sigOf o ∈ rest.map (fun sc => sc.1) := by
        simp only [List.map_cons, List.mem_cons]
        constructor
        · rintro (h | h)
          · exact absurd h.symm hs
          · exact h
        · exact Or.inr
      by_cases hin : sigOf o ∈ rest.map (fun sc => sc.1)
      · rw [if_pos (hmem.mpr hin)]
        simp only [insertBest, if_neg hs, List.map_cons, ih, if_pos hin]
      · rw [if_neg (fun h => hin (hmem.mp h))]
        simp only [insertBest, if_neg hs, List.map_cons, ih, if_neg hin,
          List.cons_append]

lemma insertBest_nodup (m : List ((String × String × String) × Cand)) (o : Cand)
    (hm : (m.map (fun sc => sc.1)).Nodup) :
    ((insertBest m o).map (fun sc => sc.1)).Nodup := by
  rw [insertBest_keys]
  by_cases hin : sigOf o ∈ m.map (fun sc => sc.1)
  · simpa [hin] using hm
  · simp only [hin, if_false]
    rw [List.nodup_append]
    refine ⟨hm, List.nodup_singleton _, ?_⟩
    intro x hx hx2
    simp only [List.mem_singleton] at hx2
    subst hx2
    exact hin hx

lemma insertBest_key_mem (m : List ((String × String × String) × Cand)) (o : Cand)
    (x : String × String × String) :
    x ∈ (insertBest m o).map (fun sc => sc.1) ↔
      x ∈ m.map (fun sc => sc.1) ∨ x = sigOf o := by
  rw [insertBest_keys]
  by_cases hin : sigOf o ∈ m.map (fun sc => sc.1)
  · simp only [hin, if_true]
    constructor
    · exact Or.inl
    · rintro (h | rfl)
      · exact h
      · exact hin
  · simp [hin]

lemma insertBest_min (m : List ((String × String × String) × Cand)) (o : Cand)
    (ps : List Cand)
    (h1 : ∀ sc ∈ m, ∀ d ∈ ps, sigOf d = sc.1 → lex3Le (dkey sc.2) (dkey d))
    (h3 : ∀ d ∈ ps, sigOf d = sigOf o → sigOf o ∈ m.map (fun sc => sc.1))
    (h4 : (m.map (fun sc => sc.1)).Nodup) :
    ∀ sc ∈ insertBest m o, ∀ d ∈ ps ++ [o], sigOf d = sc.1 →
      lex3Le (dkey sc.2) (dkey d) := by
  induction m with
  | nil =>
    intro sc hsc d hd hsig
    simp only [insertBest, List.mem_singleton] at hsc
    subst hsc
    rcases List.mem_append.mp hd with hd | hd
    · exact absurd (h3 d hd hsig) (by simp)
    · simp only [List.mem_singleton] at hd
      subst hd
      exact lex3Le_refl _
  | cons hd0 rest ih =>
    obtain ⟨s, p⟩ := hd0
    have h1rest : ∀ sc ∈ rest, ∀ d ∈ ps, sigOf d = sc.1 → lex3Le (dkey sc.2) (dkey d) :=
      fun sc hsc => h1 sc (List.mem_cons_of_mem _ hsc)
    have h4rest : (rest.map (fun sc => sc.1)).Nodup := (List.nodup_cons.mp h4).2
    have hs_not_rest : s ∉ rest.map (fun sc => sc.1) := (List.nodup_cons.mp h4).1
    intro sc hsc d hd hsig
    by_cases hs : s = sigOf o
    · -- the head entry carries the signature of `o`
      have hbest : sc = (s, if lex3Lt (dkey o) (dkey p) then o else p) ∨ sc ∈ rest := by
        by_cases hlt : lex3Lt (dkey o) (dkey p)
        · simp only [insertBest, if_pos hs, if_pos hlt, List.mem_cons] at hsc
          rcases hsc with h | h
          · exact Or.inl (by simp [h, hlt])
          · exact Or.inr h
        · simp only [insertBest, if_pos hs, if_neg hlt, List.mem_cons] at hsc
          rcases hsc with h | h
          · exact Or.inl (by simp [h, hlt])
          · exact Or.inr h
      rcases hbest with rfl | hrest
      · rcases List.mem_append.mp hd with hdps | hdo
        · -- competitors already processed: through the previous best `p`
          have hple : lex3Le (dkey p) (dkey d) :=
            h1 (s, p) (List.mem_cons_self _ _) d hdps (by simpa using hsig)
          by_cases hlt : lex3Lt (dkey o) (dkey p)
          · simpa [hlt] using lex3Le_trans _ _ _ (lex3Lt_le _ _ hlt) hple
          · simpa [hlt] using hple
        · simp only [List.mem_singleton] at hdo
          by_cases hlt : lex3Lt (dkey o) (dkey p)
          · rw [hdo]
            simpa [hlt] using lex3Le_refl (dkey o)
          · rw [hdo]
            simpa [hlt] using lex3_not_lt _ _ hlt
      · -- entries further down have a different signature from `o`
        have hne : sc.1 ≠ sigOf o := by
          intro he
          apply hs_not_rest
          rw [hs, ← he]
          exact List.mem_map_of_mem _ hrest
        rcases List.mem_append.mp hd with hdps | hdo
        · exact h1rest sc hrest d hdps hsig
        · simp only [List.mem_singleton] at hdo
          rw [hdo] at hsig
          exact absurd hsig.symm hne
    · -- head keeps a different signature, recursion in the tail
      simp only [insertBest, if_neg hs, List.mem_cons] at hsc
      rcases hsc with rfl | hsc
      · rcases List.mem_append.mp hd with hdps | hdo
        · exact h1 (s, p) (List.mem_cons_self _ _) d hdps hsig
        · simp only [List.mem_singleton] at hdo
          rw [hdo] at hsig
          exact absurd hsig.symm (by simpa using hs)
      · have h3rest : ∀ d ∈ ps, sigOf d = sigOf o → sigOf o ∈ rest.map (fun sc => sc.1) := by
          intro d' hd' hsig'
          have := h3 d' hd' hsig'
          simp only [List.map_cons, List.mem_cons] at this
          rcases this with h | h
          · exact absurd h.symm hs
          · exact h
        exact ih h1rest h3rest h4rest sc hsc d hd hsig

/-- Invariant of the `best_by_sig` dict after processing the prefix `ps` of
the candidate list: entries come from `ps`, carry their own signature as
key, keys are distinct, every processed signature is present, and each
entry minimizes `dkey` within its signature group. -/
def InvD (m : List ((String × String × String) × Cand)) (ps : List Cand) : Prop :=
  (∀ sc ∈ m, sc.2 ∈ ps) ∧
  (∀ sc ∈ m, sigOf sc.2 = sc.1) ∧
  (m.map (fun sc => sc.1)).Nodup ∧
  (∀ d ∈ ps, ∃ sc ∈ m, sc.1 = sigOf d) ∧
  (∀ sc ∈ m, ∀ d ∈ ps, sigOf d = sc.1 → lex3Le (dkey sc.2) (dkey d))

lemma invD_step (m : List ((String × String × String) × Cand)) (o : Cand)
    (ps : List Cand) (h : InvD m ps) : InvD (insertBest m o) (ps ++ [o]) := by
  obtain ⟨hmem, hsig, hnd, hcov, hmin⟩ := h
  refine ⟨insertBest_mem m o ps hmem, insertBest_sig m o hsig,
    insertBest_nodup m o hnd, ?_, ?_⟩
  · intro d hd
    have hkey : sigOf d ∈ (insertBest m o).map (fun sc => sc.1) := by
      rcases List.mem_append.mp hd with hdps | hdo
      · rcases hcov d hdps with ⟨sc, hsc, hk⟩
        exact (insertBest_key_mem m o _).mpr (Or.inl (hk ▸ List.mem_map_of_mem _ hsc))
      · simp only [List.mem_singleton] at hdo
        exact (insertBest_key_mem m o _).mpr (Or.inr (by rw [hdo]))
    rcases List.mem_map.mp hkey with ⟨sc, hsc, hk⟩
    exact ⟨sc, hsc, hk⟩
  · refine insertBest_min m o ps hmin ?_ hnd
    intro d hd hsd
    rcases hcov d hd with ⟨sc, hsc, hk⟩
    rw [← hsd, ← hk]
    exact List.mem_map_of_mem _ hsc

lemma invD_fold (cs : List Cand) :
    ∀ m ps, InvD m ps → InvD (cs.foldl insertBest m) (ps ++ cs) := by
  induction cs with
  | nil =>
    intro m ps h
    simpa using h
  | cons c cs ih =>
    intro m ps h
    have h2 := invD_step m c ps h
    have h3 := ih (insertBest m c) (ps ++ [c]) h2
    simpa [List.append_assoc] using h3

lemma invD_nil : InvD [] [] := by
  refine ⟨?_, ?_, ?_, ?_, ?_⟩ <;> simp

lemma dedup_inv (cs : List Cand) : InvD (cs.foldl insertBest []) cs := by
  simpa using invD_fold cs [] [] invD_nil

lemma dedup_subset (cs : List Cand) : ∀ c ∈ dedupBySig cs, c ∈ cs := by
  intro c hc
  rcases List.mem_map.mp hc with ⟨sc, hsc, rfl⟩
  exact (dedup_inv cs).1 sc hsc

lemma dedup_sig_nodup (cs : List Cand) : ((dedupBySig cs).map sigOf).Nodup := by
  have h := dedup_inv cs
  have heq : (dedupBySig cs).map sigOf = (cs.foldl insertBest []).map (fun sc => sc.1) := by
    rw [dedupBySig, List.map_map]
    exact List.map_congr_left (fun sc hsc => h.2.1 sc hsc)
  rw [heq]
  exact h.2.2.1

lemma dedup_cover (cs : List Cand) :
    ∀ d ∈ cs, ∃ c ∈ dedupBySig cs, sigOf c = sigOf d := by
  intro d hd
  have h := dedup_inv cs
  rcases h.2.2.2.1 d hd with ⟨sc, hsc, hk⟩
  exact ⟨sc.2, List.mem_map_of_mem _ hsc, by rw [h.2.1 sc hsc, hk]⟩

lemma dedup_min (cs : List Cand) :
    ∀ c ∈ dedupBySig cs, ∀ d ∈ cs, sigOf d = sigOf c → lex3Le (dkey c) (dkey d) := by
  intro c hc d hd hsd
  have h := dedup_inv cs
  rcases List.mem_map.mp hc with ⟨sc, hsc, rfl⟩
  exact h.2.2.2.2 sc hsc d hd (by rw [hsd, h.2.1 sc hsc])

-- ==========================================================================
--                               CLAIMS
-- ==========================================================================

/-- Step-1 phrase test of `experience_ok` ("no experience needed"). -/
def noExpHit (text : String) : Bool :=
  NO_EXP_PHRASES.any (fun p => inStr p (lowerS text))

/-- Step-2 phrase test of `experience_ok` (explicit non-numeric
"experience required/mandatory/significant" phrases). -/
def expReqHit (text : String) : Bool :=
  EXP_REQUIRED_PHRASES.any (fun p => inStr p (lowerS text))

/-- Step-4 phrase test of `experience_ok` ("early/first experience"). -/
def firstExpHit (text : String) : Bool :=
  FIRST_EXP_PHRASES.any (fun p => inStr p (lowerS text))

/-- Runs `RE_RANGE.search` on the lower-cased text. -/
def searchRange (text : String) : Option (Nat × Nat) :=
  searchO rangeAt (lowerS text).data

/-- Runs `RE_MIN.search` on the lower-cased text. -/
def searchMin (text : String) : Option Nat :=
  searchO minAt (lowerS text).data

/-- Runs `RE_YEARS.search` on the lower-cased text. -/
def searchYears (text : String) : Option Nat :=
  searchO yearsAt (lowerS text).data

/-- C2: `experience_ok` implements the stated decision order — explicit
no-experience phrase accepts; else an explicit (non-numeric)
required/mandatory/significant phrase rejects; else the numeric patterns
are tried in priority order range, minimum, plain, accepting iff the
bound is ≤ 1; else (early-experience phrase or no information) accept —
together with the four quoted evaluations. -/
theorem C2_experience_policy (t : String) :
    (noExpHit t = true → experience_ok t = true) ∧
    (noExpHit t = false → expReqHit t = true → experience_ok t = false) ∧
    (noExpHit t = false → expReqHit t = false →
      ∀ x y, searchRange t = some (x, y) → experience_ok t = decide (max x y ≤ 1)) ∧
    (noExpHit t = false → expReqHit t = false → searchRange t = none →
      ∀ x, searchMin t = some x → experience_ok t = decide (x ≤ 1)) ∧
    (noExpHit t = false → expReqHit t = false → searchRange t = none →
      searchMin t = none →
      ∀ x, searchYears t = some x → experience_ok t = decide (x ≤ 1)) ∧
    (noExpHit t = false → expReqHit t = false → searchRange t = none →
      searchMin t = none → searchYears t = none → experience_ok t = true) ∧
    (experience_ok ("2 à 3 ans d'expérience requis") = false ∧
     experience_ok ("1 an d'expérience") = true ∧
     experience_ok ("débutant accepté") = true ∧
     experience_ok ("") = true) := by
  refine ⟨?_, ?_, ?_, ?_, ?_, ?_, by decide, by decide, by decide, by decide⟩
  · intro h
    simp only [noExpHit] at h
    simp [experience_ok, h]
  · intro h0 h
    simp only [noExpHit] at h0
    simp only [expReqHit] at h
    simp [experience_ok, h0, h]
  · intro h0 h1 x y hr
    simp only [noExpHit] at h0
    simp only [expReqHit] at h1
    simp only [searchRange] at hr
    simp [experience_ok, h0, h1, hr]
  · intro h0 h1 hr x hm
    simp only [noExpHit] at h0
    simp only [expReqHit] at h1
    simp only [searchRange] at hr
    simp only [searchMin] at hm
    simp [experience_ok, h0, h1, hr, hm]
  · intro h0 h1 hr hm x hy
    simp only [noExpHit] at h0
    simp only [expReqHit] at h1
    simp only [searchRange] at hr
    simp only [searchMin] at hm
    simp only [searchYears] at hy
    simp [experience_ok, h0, h1, hr, hm, hy]
  · intro h0 h1 hr hm hy
    simp only [noExpHit] at h0
    simp only [expReqHit] at h1
    simp only [searchRange] at hr
    simp only [searchMin] at hm
    simp only [searchYears] at hy
    simp [experience_ok, h0, h1, hr, hm, hy]

/-- C2 witness: the explicit-required-phrase tier fires on a concrete
text. -/
theorem C2_experience_policy_witness :
    noExpHit ("expérience requise") = false ∧
    expReqHit ("expérience requise") = true ∧
    experience_ok ("expérience requise") = false :=
  ⟨by decide, by decide,
    (C2_experience_policy ("expérience requise")).2.1 (by decide) (by decide)⟩

/-- Hard-exclude tier of `role_allowed` (kitchen, food-specialist trades,
hypermarket chains), applied exactly as the code applies it. -/
def roleHardHit (text : String) : Bool :=
  has_any (lowerS text) CUISINE_HARD || has_any (lowerS text) ALIMENTAIRE_HARD ||
    has_any (lowerS text) HYPER_CHAINS

/-- Soft-exclusive tier of `role_allowed` (cleaning-only or
dishwashing-only). -/
def roleSoftOnly (text : String) : Bool :=
  role_is_cleaning_only (lowerS text) || role_is_plonge_only (lowerS text)

/-- Allow tier of `role_allowed` (service/bar/generalist, non-food retail
sales, shelf-stocking/merchandising). -/
def roleAllowHit (text : String) : Bool :=
  has_any (lowerS text) SERVICE_BAR_POLY || has_any (lowerS text) VENTE_OBJETS ||
    has_any (lowerS text) RAYON_MERCH

/-- C3: `role_allowed` is the three-tier precedence hard-exclude >
soft-exclude-if-exclusive > allow-if-any-match, with the three quoted
evaluations. -/
theorem C3_role_precedence (t : String) :
    (roleHardHit t = true → role_allowed t = false) ∧
    (roleHardHit t = false → roleSoftOnly t = true → role_allowed t = false) ∧
    (roleHardHit t = false → roleSoftOnly t = false → role_allowed t = roleAllowHit t) ∧
    (role_allowed ("cuisinier confirmé") = false ∧
     role_allowed ("plongeur pour restaurant") = false ∧
     role_allowed ("plongeur et serveur polyvalent") = true) := by
  refine ⟨?_, ?_, ?_, by decide, by decide, by decide⟩
  · intro h
    simp only [roleHardHit, Bool.or_eq_true] at h
    simp [role_allowed]
    intro h1 h2 h3
    rcases h with (h | h) | h <;> simp_all
  · intro h0 h
    simp only [roleHardHit, Bool.or_eq_true] at h0
    simp only [roleSoftOnly, Bool.or_eq_true] at h
    simp [role_allowed]
    intro h1 h2 h3 h4 h5
    rcases h with h | h <;> simp_all
  · intro h0 h1
    simp only [roleHardHit, Bool.or_eq_true] at h0
    simp only [roleSoftOnly, Bool.or_eq_true] at h1
    simp only [role_allowed, roleAllowHit]
    rw [if_neg, if_neg]
    · intro hcl
      simp_all
    · intro hh
      simp_all

/-- C3 witness: the hard-exclude tier refuses a kitchen text outright. -/
theorem C3_role_precedence_witness :
    roleHardHit ("cuisinier confirmé") = true ∧
    role_allowed ("cuisinier confirmé") = false :=
  ⟨by decide, (C3_role_precedence ("cuisinier confirmé")).1 (by decide)⟩

/-- The training-keyword half of `requires_training`. -/
def trainingKwHit (text : String) : Bool :=
  TRAINING_KEYWORDS.any (fun k => inStr k (lowerS text))

/-- The requirement-strength half of `requires_training`. -/
def trainingReqHit (text : String) : Bool :=
  TRAINING_REQUIRE_WORDS.any (fun w => inStr w (lowerS text))

/-- C9: `requires_training` is the conjunction of a training/diploma
keyword hit and a requirement-strength word hit — a diploma mention
without a requirement word never fires — with the two quoted
evaluations. -/
theorem C9_training_conjunction :
    (∀ t : String, requires_training t = (trainingKwHit t && trainingReqHit t)) ∧
    requires_training ("certification obligatoire pour ce poste") = true ∧
    requires_training ("certification appréciée") = false :=
  ⟨fun _ => rfl, by decide, by decide⟩

/-- Word splitting on spaces and apostrophes, used to state that a text
contains no keyword as a whole word. -/
def wordsAux : List Char → List Char → List (List Char)
  | [], acc => [acc.reverse]
  | c :: t, acc =>
    if c = ' ' ∨ c = '\'' then acc.reverse :: wordsAux t []
    else wordsAux t (c :: acc)

def wordsOf (s : String) : List (List Char) :=
  (wordsAux s.data []).filter (fun w => w ≠ [])

/-- C10: the keyword tables of `requires_training` are matched as raw
substrings: "capacité d'adaptation nécessaire" mentions no training
keyword as a whole word, yet fires, because the keyword "cap" occurs
inside "capacité" and "nécessaire" is a requirement-strength word. -/
theorem C10_training_substring_false_positive :
    requires_training ("capacité d'adaptation nécessaire") = true ∧
    ("cap" ∈ TRAINING_KEYWORDS ∧
      inStr ("cap") (lowerS ("capacité d'adaptation nécessaire")) = true) ∧
    ("nécessaire" ∈ TRAINING_REQUIRE_WORDS) ∧
    (∀ w ∈ TRAINING_KEYWORDS, ("cap").data ∈ wordsOf ("capacité d'adaptation nécessaire") → False) ∧
    (∀ w ∈ TRAINING_KEYWORDS, w.data ∉ wordsOf ("capacité d'adaptation nécessaire")) := by
  exact ⟨by decide, ⟨by decide, by decide⟩, by decide, by decide, by decide⟩

/-- Embeds `check_text = (text_preview + " " + detail_text).strip()` as a binary
text merge. -/
def mergeText (p d : String) : String := stripS (p ++ " " ++ d)

/-- C7 counterexample: each of `role_allowed`, `experience_ok` and a
negative `requires_training` verdict established on the preview alone IS
overturned by detail text on concrete inputs, so the claim as stated is
false. -/
theorem C7_counterexample :
    role_allowed ("serveur") = true ∧
    role_allowed (mergeText ("serveur") ("cuisine")) = false ∧
    experience_ok ("serveur") = true ∧
    experience_ok (mergeText ("serveur") ("expérience exigée")) = false ∧
    requires_training ("serveur") = false ∧
    requires_training (mergeText ("serveur") ("cap exigé")) = true := by
  exact ⟨by decide, by decide, by decide, by decide, by decide, by decide⟩

/-- Monotonicity of a keyword with non-whitespace endpoints under the
pipeline's preview-plus-detail merge. -/
lemma inStr_mergeText (k p d : String)
    (hh : headNotSp k.data = true) (hr : headNotSp k.data.reverse = true)
    (hk : inStr k (lowerS p) = true) :
    inStr k (lowerS (mergeText p d)) = true := by
  have hdata : (mergeText p d).data = stripL (p.data ++ ' ' :: d.data) := by
    show (stripS (p ++ " " ++ d)).data = _
    have h1 : (p ++ " " ++ d).data = p.data ++ ' ' :: d.data := by
      rw [data_append, data_append]
      simp
    simp [stripS, h1]
  have hk1 : containsSub k.data (lowerL p.data) = true := hk
  have hk2 : containsSub k.data (lowerL (p.data ++ ' ' :: d.data)) = true := by
    rw [lowerL_append]
    exact containsSub_append_right _ _ _ hk1
  have hk3 := containsSub_lower_strip k.data (p.data ++ ' ' :: d.data) hh hr hk2
  show containsSub k.data (lowerL (mergeText p d).data) = true
  rw [hdata]
  exact hk3

/-- C7 amended: only the purely existential substring classifiers are
preview-stable — a positive `matches_housing` (and `mentions_permit`)
verdict on the preview text is never overturned on the merged
preview-plus-detail text; `role_allowed`, `experience_ok` and a negative
`requires_training` verdict can each be overturned by detail text (see
the counterexample), which is why the pipeline re-checks them. -/
theorem C7_preview_positive_stability (p d : String) :
    (matches_housing p = true → matches_housing (mergeText p d) = true) ∧
    (mentions_permit p = true → mentions_permit (mergeText p d) = true) := by
  constructor
  · intro h
    simp only [matches_housing, List.any_eq_true] at h
    rcases h with ⟨k, hkmem, hk⟩
    have hgood : headNotSp k.data = true ∧ headNotSp k.data.reverse = true := by
      fin_cases hkmem <;> exact ⟨by decide, by decide⟩
    simp only [matches_housing, List.any_eq_true]
    exact ⟨k, hkmem, inStr_mergeText k p d hgood.1 hgood.2 hk⟩
  · intro h
    exact inStr_mergeText ("permi") p d (by decide) (by decide) h

/-- C7 witness: a housing verdict from the preview survives a merge with
an arbitrary detail text. -/
theorem C7_preview_positive_stability_witness :
    matches_housing ("poste logé") = true ∧
    matches_housing (mergeText ("poste logé") ("détail quelconque")) = true :=
  ⟨by decide,
    (C7_preview_positive_stability ("poste logé") ("détail quelconque")).1 (by decide)⟩

/-- Ranking example: (Recent, permit-free, 80 km). -/
def exRankA : Cand :=
  ⟨"a", "", "", 80, "https://a", none, none, "", -1, false⟩

/-- Ranking example: (Normal, permit-free, 5 km). -/
def exRankB : Cand :=
  ⟨"b", "", "", 5, "https://b", none, none, "", 0, false⟩

/-- Ranking example: (Recent, permit-mentioning, 5 km). -/
def exRankC : Cand :=
  ⟨"c", "", "", 5, "https://c", none, none, "", -1, true⟩

/-- C4: the final output is the deduplicated set sorted ascending by
`(recent_bias, permit as 0/1, distance_km)` — the output is sorted for
that lexicographic order, is a permutation of its input, ties keep the
stable input order (the sort commutes with filtering on any fixed key),
and the quoted three-candidate example orders as
(Recent,false,80), (Recent,true,5), (Normal,false,5). -/
theorem C4_output_ordering :
    (∀ cs : List Cand, List.Sorted rankLE (finalSort cs)) ∧
    (∀ cs : List Cand, List.Perm (finalSort cs) cs) ∧
    (∀ (cs : List Cand) (k : Int × Int × Int),
      (finalSort cs).filter (fun c => decide (sortKey c = k)) =
        cs.filter (fun c => decide (sortKey c = k))) ∧
    enrich_and_filter
        ⟨true, true, "", fun _ => "", fun _ => "", fun _ => none,
         fun _ => (none, none), fun _ _ => none, fun _ => 99999⟩ [] = [] ∧
    finalSort (dedupBySig [exRankA, exRankB, exRankC]) = [exRankA, exRankC, exRankB] :=
  ⟨finalSort_sorted, finalSort_perm, fun cs k => finalSort_stable k cs,
    by decide, by decide⟩

/-- Dedup example: same (title, employer, city), permit-free at 50 km. -/
def exDupA : Cand :=
  ⟨"Serveur", "X", "Lyon", 50, "https://l1", none, none, "", 0, false⟩

/-- Dedup example: same signature, permit-mentioning at 10 km. -/
def exDupB : Cand :=
  ⟨"Serveur", "X", "Lyon", 10, "https://l2", none, none, "", 0, true⟩

/-- C5: the signature dedup keeps, per case-folded whitespace-collapsed
(title, employer, city) group, exactly one candidate — one of the group
minimizing `(permit as 0/1, distance_km, recent_bias)` — and in the
quoted example the permit-free candidate wins despite its larger
distance. -/
theorem C5_dedup_keep_best :
    (∀ cs : List Cand, ∀ c ∈ dedupBySig cs, c ∈ cs) ∧
    (∀ cs : List Cand, ((dedupBySig cs).map sigOf).Nodup) ∧
    (∀ cs : List Cand, ∀ d ∈ cs, ∃ c ∈ dedupBySig cs, sigOf c = sigOf d) ∧
    (∀ cs : List Cand, ∀ c ∈ dedupBySig cs, ∀ d ∈ cs,
      sigOf d = sigOf c → lex3Le (dkey c) (dkey d)) ∧
    dedupBySig [exDupA, exDupB] = [exDupA] :=
  ⟨dedup_subset, dedup_sig_nodup, dedup_cover, dedup_min, by decide⟩

/-- C5 witness: in the two-candidate example the kept candidate's key is
minimal in its group. -/
theorem C5_dedup_keep_best_witness : lex3Le (dkey exDupA) (dkey exDupB) :=
  C5_dedup_keep_best.2.2.2.1 [exDupA, exDupB] exDupA (by decide) exDupB
    (by decide) (by decide)

/-- Acceptance characterization of the loop body: an item yields a
candidate exactly when it passes, in order, the URL/dedup gate, the two
preview gates, and the four merged-text gates.  No condition involves
`mentions_permit`. -/
lemma processItem_isSome_iff (e : PipeEnv) (seen : List String) (it : RawItem) :
    ((processItem e seen it).1).isSome = true ↔
      (is_http_url it.link = true ∧ it.link ∉ seen ∧
       requires_training (textPreview it) = false ∧
       experience_ok (textPreview it) = true ∧
       role_allowed (checkText e it) = true ∧
       (e.housingRequired = true → matches_housing (checkText e it) = true) ∧
       requires_training (checkText e it) = false ∧
       experience_ok (checkText e it) = true) := by
  unfold processItem
  split_ifs with h1 h2 h3 h4 h5 h6 h7 h8
  · simp [h1]
  · simp [h2]
  · simp [h3]
  · simp [h4]
  · simp [h5]
  · simp only [Option.isSome_none, Bool.false_eq_true, false_iff]
    intro hc
    rw [hc.2.2.2.2.2.1 h6.1] at h6
    exact absurd h6.2 (by simp)
  · simp [h7]
  · simp [h8]
  · simp only [Option.isSome_some, true_iff]
    refine ⟨by simpa using h1, h2, by simpa using h3, by simpa using h4,
      by simpa using h5, ?_, by simpa using h7, by simpa using h8⟩
    intro hhr
    cases hmv : matches_housing (checkText e it) with
    | true => rfl
    | false => exact absurd ⟨hhr, hmv⟩ h6

/-- C1: the filter pipeline accepts a normalized candidate exactly when
it survives, in order: absolute HTTP(S) non-duplicate link; no mandatory
training and acceptable experience on the preview text; the detail fetch
policy; allowed role, housing (when required), no mandatory training and
acceptable experience on the merged text.  `requires_permit` is computed
on the merged text and appears in no condition, so its value never
affects acceptance; the accepted candidate merely records it. -/
theorem C1_filter_pipeline (e : PipeEnv) (seen : List String) (it : RawItem) :
    (((processItem e seen it).1).isSome = true ↔
      (is_http_url it.link = true ∧ it.link ∉ seen ∧
       requires_training (textPreview it) = false ∧
       experience_ok (textPreview it) = true ∧
       role_allowed (checkText e it) = true ∧
       (e.housingRequired = true → matches_housing (checkText e it) = true) ∧
       requires_training (checkText e it) = false ∧
       experience_ok (checkText e it) = true)) ∧
    Option.all (fun c => c.requires_permit == mentions_permit (checkText e it))
      ((processItem e seen it).1) = true := by
  refine ⟨processItem_isSome_iff e seen it, ?_⟩
  unfold processItem
  split_ifs <;> simp [mkCand]

/-- A concrete environment with trivial external collaborators, used by
the witnesses. -/
def envW : PipeEnv :=
  ⟨true, true, "", fun _ => "", fun _ => "", fun _ => none,
   fun _ => (none, none), fun _ _ => none, fun _ => 99999⟩

/-- A concrete raw listing that passes every filter from its preview. -/
def itW : RawItem :=
  ⟨"Serveur polyvalent", "", "Lyon", "https://example.org/a",
   "logé nourri débutant accepté"⟩

/-- C1 witness: the concrete listing is accepted. -/
theorem C1_filter_pipeline_witness :
    ((processItem envW [] itW).1).isSome = true :=
  (C1_filter_pipeline envW [] itW).1.mpr
    ⟨by decide, by simp, by decide, by decide, by decide,
     fun _ => by decide, by decide, by decide⟩

/-- Copy of `PipeEnv` with the detail-page fetcher replaced. -/
def setFetch (e : PipeEnv) (f : String → String) : PipeEnv :=
  ⟨e.housingRequired, e.fallbackEnabled, e.today, f, e.pickCity, e.extractEmp,
   e.contacts, e.fallbackPhone, e.geoDist⟩

/-- C6: for a candidate that reaches the detail-fetch step (valid fresh
link, preview passes the training and experience gates), the detail page
is fetched iff the preview fails the role test or housing is required
and the preview fails the housing test; and when that condition is
false, the outcome does not depend on the fetcher at all — the
classification completes on the preview text. -/
theorem C6_detail_fetch_policy (e : PipeEnv) (seen : List String) (it : RawItem)
    (h1 : is_http_url it.link = true) (h2 : it.link ∉ seen)
    (h3 : requires_training (textPreview it) = false)
    (h4 : experience_ok (textPreview it) = true) :
    (processItem e seen it).2 = needDetail e.housingRequired (textPreview it) ∧
    (needDetail e.housingRequired (textPreview it) = false →
      ∀ f g : String → String,
        processItem (setFetch e f) seen it = processItem (setFetch e g) seen it) := by
  constructor
  · unfold processItem
    rw [if_neg (by simp [h1]), if_neg h2, if_neg (by simp [h3]),
      if_neg (by simp [h4])]
    split_ifs <;> rfl
  · intro hnd f g
    have hd : ∀ h : String → String, detailText (setFetch e h) it = "" := by
      intro h
      show (if needDetail e.housingRequired (textPreview it) then h it.link else ("")) = ""
      rw [hnd]
      rfl
    have hc : ∀ h : String → String,
        checkText (setFetch e h) it = stripS (textPreview it ++ " " ++ "") := by
      intro h
      show stripS (textPreview it ++ " " ++ detailText (setFetch e h) it) = _
      rw [hd h]
    have hcf : checkText (setFetch e f) it = checkText (setFetch e g) it := by
      rw [hc f, hc g]
    have hmk : mkCand (setFetch e f) it = mkCand (setFetch e g) it := by
      unfold mkCand cityFinal employerFinal cityListing
      rw [hd f, hd g, hcf]
      simp only [setFetch]
    unfold processItem
    rw [hcf, hmk]
    simp only [setFetch]

/-- C6 witness: the concrete listing reaches the fetch step and the
returned fetch flag equals the policy condition. -/
theorem C6_detail_fetch_policy_witness :
    (processItem envW [] itW).2 = needDetail envW.housingRequired (textPreview itW) :=
  (C6_detail_fetch_policy envW [] itW (by decide) (by simp) (by decide) (by decide)).1

/-- Copy of `PipeEnv` with the geocoded distance function replaced. -/
def setGeo (e : PipeEnv) (g : String → Int) : PipeEnv :=
  ⟨e.housingRequired, e.fallbackEnabled, e.today, e.fetch, e.pickCity, e.extractEmp,
   e.contacts, e.fallbackPhone, g⟩

/-- C8: a candidate whose city resolves to no coordinates is not dropped —
acceptance is independent of the distance function — and receives the
sentinel distance 99999; every resolved rounded haversine distance (Earth
radius 6371 km) is strictly below the sentinel; and in the sorted output
no sentinel-distance candidate ever precedes a resolved-distance
candidate of equal `recent_bias` and `requires_permit`. -/
theorem C8_unknown_distance :
    (∀ origin : ℝ × ℝ, distOf origin none = 99999) ∧
    (∀ origin c : ℝ × ℝ, distOf origin (some c) < 99999) ∧
    (∀ cs : List Cand, List.Pairwise
      (fun a b => a.recent_bias = b.recent_bias →
        a.requires_permit = b.requires_permit → b.distance_km < 99999 →
        a.distance_km < 99999) (finalSort cs)) ∧
    (∀ (e : PipeEnv) (g g' : String → Int) (seen : List String) (it : RawItem),
      ((processItem (setGeo e g) seen it).1).isSome =
        ((processItem (setGeo e g') seen it).1).isSome) := by
  refine ⟨fun _ => rfl, ?_, ?_, ?_⟩
  · intro o c
    show round (haversine_km o.1 o.2 c.1 c.2) < 99999
    have h0 : haversine_km o.1 o.2 c.1 c.2 ≤ 6371 * Real.pi := by
      have h2 : ∀ y : ℝ, 2 * (6371 : ℝ) * Real.arcsin y ≤ 6371 * Real.pi := by
        intro y
        have := Real.arcsin_le_pi_div_two y
        linarith
      simp only [haversine_km]
      exact h2 _
    have hround : ((round (haversine_km o.1 o.2 c.1 c.2) : ℤ) : ℝ) < 99999 := by
      rw [round_eq]
      have hfl : ((⌊haversine_km o.1 o.2 c.1 c.2 + 1 / 2⌋ : ℤ) : ℝ) ≤
          haversine_km o.1 o.2 c.1 c.2 + 1 / 2 := Int.floor_le _
      have hpi : Real.pi ≤ 4 := Real.pi_le_four
      linarith
    exact_mod_cast hround
  · intro cs
    refine List.Pairwise.imp ?_ (finalSort_sorted cs)
    intro a b hab hrb hrp hbd
    simp only [rankLE, lex3Le, sortKey] at hab
    rw [hrb, hrp] at hab
    omega
  · intro e g g' seen it
    have hiff := processItem_isSome_iff (setGeo e g) seen it
    have hiff' := processItem_isSome_iff (setGeo e g') seen it
    by_cases hval : ((processItem (setGeo e g) seen it).1).isSome = true
    · rw [hval, hiff'.mpr (hiff.mp hval)]
    · have h1 : ((processItem (setGeo e g) seen it).1).isSome = false := by
        cases hv : ((processItem (setGeo e g) seen it).1).isSome
        · rfl
        · exact absurd hv hval
      have h2 : ((processItem (setGeo e g') seen it).1).isSome = false := by
        cases hv : ((processItem (setGeo e g') seen it).1).isSome
        · rfl
        · exact absurd (hiff.mpr (hiff'.mp hv)) hval
      rw [h1, h2]
